import Mathlib

/-
Verification of the Nelder-Mead simplex optimizer (nelder-mead-rs).

The embedding models the two generations of code present in the crate:

* `src/minimizer.rs` — the ndarray-based `Minimizer` with fields
  `a, b, c, d, h, tol, max` and the method `Minimizer::minimize`, whose
  iteration loop (reflection / expansion / contraction / inline shrink,
  pull update, stable sort, incremental centroid update, single
  function-value termination test) is embedded below as `step`,
  `loopAux` and `minimize`.

* `src/simplex.rs` — the generic `Simplex` with `Simplex::new` and
  `Simplex::shrink`, embedded as `Simplex.new` and `Simplex.shrink`;
  its configuration record (fields `step`, `step_zero`, `d` of the
  generic `Minimizer`) is embedded as `MinimizerG`.

Scalars are modelled as `ℚ` (exact field arithmetic in place of `f64`;
no claim under consideration depends on rounding, overflow or NaN).
Vectors (`ndarray::Array1` / `vector.rs::Vector`) are lists of scalars.
-/

/-- Elementwise vector addition: the `Add` impls of `vector.rs` and the
`ndarray` `acc + x` used by the centroid folds (`zipWith (+)`). -/
def vadd (u v : List ℚ) : List ℚ := List.zipWith (· + ·) u v

/-- Elementwise vector subtraction: the `Sub` impls of `vector.rs` and the
`ndarray` differences such as `old_xh - new_xh`. -/
def vsub (u v : List ℚ) : List ℚ := List.zipWith (· - ·) u v

/-- Scaling a vector by a scalar: the `Mul<Item>` impls (`x * rhs`); scalar
multiplication in `ℚ` is commutative, so one helper covers both
`scalar * vector` (ndarray) and `vector * scalar` (vector.rs). -/
def smul (c : ℚ) (v : List ℚ) : List ℚ := v.map (fun x => c * x)

/-- Fused update `self += rhs * a`: `Vector::scaled_add` of `vector.rs`
(`*x = y.mul_add(a, *x)`) and ndarray's `scaled_add`. -/
def scaledAdd (self : List ℚ) (a : ℚ) (rhs : List ℚ) : List ℚ :=
  List.zipWith (fun x y => y * a + x) self rhs

/-- Zero vector of a given length: `Array1::zeros` / `Vector::zeros`. -/
def zerosVec (n : Nat) : List ℚ := List.replicate n 0

/-- A vertex of the simplex: the `(f64, Array1<f64>)` tuples of
`minimizer.rs` and the `Pair { f, x }` struct of `simplex.rs`. -/
abbrev Pair : Type := ℚ × List ℚ

/-- Default used to totalize the accessors that the Rust code `unwrap`s;
it is never reached on the simplexes (length ≥ 1) the algorithm builds. -/
def dfltPair : Pair := (0, [])

/-- Insertion step of the stable sort: the inserted element is placed
before the first element of greater-or-equal key, so earlier elements
stay before equal later ones, matching Rust's stable `sort_by` with the
comparator `a.0.partial_cmp(&b.0).unwrap_or(Equal)` (total on `ℚ`). -/
def insertP (p : Pair) : List Pair → List Pair
  | [] => [p]
  | q :: qs => if p.1 ≤ q.1 then p :: q :: qs else q :: insertP p qs

/-- Stable sort of the vertex list by ascending value: the `sort_by`
calls of `minimizer.rs` (a stable sort by a total key is extensionally
unique, so insertion sort coincides with Rust's merge-based sort). -/
def sortPairs : List Pair → List Pair
  | [] => []
  | p :: ps => insertP p (sortPairs ps)

/-- First vertex: `pairs.first().unwrap()` (the best after a sort). -/
def firstP (l : List Pair) : Pair := l.headD dfltPair

/-- Last vertex: `pairs.last().unwrap()` (the worst after a sort). -/
def lastP (l : List Pair) : Pair := l.getLastD dfltPair

/-- Value of the first vertex (`fl` in the source). -/
def firstF (l : List Pair) : ℚ := (firstP l).1

/-- Point of the first vertex (`xl` in the source). -/
def firstX (l : List Pair) : List ℚ := (firstP l).2

/-- Value of the last vertex (`fh` in the source). -/
def lastF (l : List Pair) : ℚ := (lastP l).1

/-- Point of the last vertex (`xh` in the source). -/
def lastX (l : List Pair) : List ℚ := (lastP l).2

/-- Value of the second-to-last vertex:
`pairs.iter().rev().skip(1).rev().last().unwrap().0` (`fs`), i.e. the
last of all-but-the-last. -/
def secondF (l : List Pair) : ℚ := (lastP l.dropLast).1

/-- Modelled from the spec: the configuration record of the generic
`Minimizer` used by `src/simplex.rs` (its declaration is not among the
given sources; `simplex.rs` reads the fields `step`, `step_zero` and
`d`, whose spec defaults are 0.01, 0.00025 and 0.5). -/
structure MinimizerG where
  step : ℚ
  step_zero : ℚ
  d : ℚ

/-- The spec's default values for `MinimizerG`. -/
def defaultMG : MinimizerG := ⟨1/100, 1/4000, 1/2⟩

/-- `Simplex::new` of `src/simplex.rs`: vertex 0 is `(f(seed), seed)`;
for each coordinate index `idx`, the seed is copied and coordinate
`idx` is set to `step_zero` if it is zero, else multiplied by
`(1 + step)`; the objective is evaluated at each perturbed point. -/
def Simplex.new (mg : MinimizerG) (f : List ℚ → ℚ) (slice : List ℚ) : List Pair :=
  (f slice, slice) ::
    (List.range slice.length).map (fun idx =>
      let xi := slice.getD idx 0
      let x := slice.set idx (if xi = 0 then mg.step_zero else xi * (1 + mg.step))
      (f x, x))

/-- `Simplex::shrink` of `src/simplex.rs`: every vertex except the first
(best) has its point replaced by `x * d` then `scaled_add (1-d) best`
(i.e. `d·x + (1-d)·best`), and its value re-evaluated there; the first
vertex is untouched.  The Rust code `unwrap`s the best vertex, so the
empty case (impossible for a simplex) is mapped to the empty list. -/
def Simplex.shrink (mg : MinimizerG) (f : List ℚ → ℚ) : List Pair → List Pair
  | [] => []
  | best :: rest =>
      best :: rest.map (fun p =>
        let x := scaledAdd (smul mg.d p.2) (1 - mg.d) best.2
        (f x, x))

/-- The `Minimizer` struct of `src/minimizer.rs`: reflection `a`,
contraction `b`, expansion `c`, shrinkage `d`, initialization `h`,
tolerance `tol`, iterations parameter `max`. -/
structure Minimizer where
  a : ℚ
  b : ℚ
  c : ℚ
  d : ℚ
  h : ℚ
  tol : ℚ
  max : Nat

/-- `impl Default for Minimizer`: a = 1.0, b = 0.5, c = 2.0, d = 0.5,
h = 0.05, tol = 1e-4, max = 200. -/
def Minimizer.default : Minimizer := ⟨1, 1/2, 2, 1/2, 1/20, 1/10000, 200⟩

/-- The mutable locals of the iteration loop of `Minimizer::minimize`:
the vertex list `pairs` and the incrementally maintained `centroid`. -/
structure LoopState where
  pairs : List Pair
  centroid : List ℚ

/-- Reflection point, line 111 of `minimizer.rs`:
`xr = (1 + a) * centroid - a * xh`. -/
def reflectPt (m : Minimizer) (c w : List ℚ) : List ℚ :=
  vsub (smul (1 + m.a) c) (smul m.a w)

/-- Expansion point, line 123: `xe = (1 - c) * centroid + c * xr`. -/
def expandPt (m : Minimizer) (c xr : List ℚ) : List ℚ :=
  vadd (smul (1 - m.c) c) (smul m.c xr)

/-- Outside contraction point, line 150:
`xc = (1 - b) * centroid + b * xr`. -/
def outsideCt (m : Minimizer) (c xr : List ℚ) : List ℚ :=
  vadd (smul (1 - m.b) c) (smul m.b xr)

/-- Inside contraction point, line 154:
`xc = (1 - b) * centroid + b * xh`. -/
def insideCt (m : Minimizer) (c w : List ℚ) : List ℚ :=
  vadd (smul (1 - m.b) c) (smul m.b w)

/-- The inline shrinkage loop of `minimizer.rs` (lines 179-184): every
vertex except the first has its point rescaled, `x = d*x + (1-d)*xl`
(`*x *= d; x.scaled_add(1-d, xl)`); the stored values are NOT
re-evaluated there (unlike `Simplex::shrink`). -/
def shrinkTail (d : ℚ) (xl : List ℚ) : List Pair → List Pair
  | [] => []
  | p0 :: rest => p0 :: rest.map (fun p => (p.1, scaledAdd (smul d p.2) (1 - d) xl))

/-- The pull update / sort / incremental centroid update shared by the
accepted-reflection and accepted-contraction branches (lines 133-144 and
164-175): pop the last vertex, push the candidate, re-sort, then
`centroid += inv_dim * (old_xh - new_xh)`. -/
def stepAccept (iD : ℚ) (st : LoopState) (cand : Pair) : LoopState :=
  let pairs := sortPairs (st.pairs.dropLast ++ [cand])
  ⟨pairs, scaledAdd st.centroid iD (vsub (lastX st.pairs) (lastX pairs))⟩

/-- The shrinkage branch tail (lines 177-198): shrink all non-first
points in place, pop the (now shrunk) last vertex, push the ORIGINAL
worst pair back, re-sort, then
`centroid = (1-d)*xl + d*centroid; centroid += inv_dim*(old_xh-new_xh)`. -/
def stepShrink (m : Minimizer) (iD : ℚ) (st : LoopState) : LoopState :=
  let shr := shrinkTail m.d (firstX st.pairs) st.pairs
  let pairs := sortPairs (shr.dropLast ++ [lastP st.pairs])
  ⟨pairs,
    scaledAdd (vadd (smul (1 - m.d) (firstX st.pairs)) (smul m.d st.centroid)) iD
      (vsub (lastX st.pairs) (lastX pairs))⟩

/-- One iteration body of the loop of `Minimizer::minimize`
(lines 105-199): reflection, then either the accepted-reflection branch
(with conditional expansion) or the contraction branch (accepted, or
falling through to shrinkage).  `iD` is the precomputed `inv_dim`. -/
def step (m : Minimizer) (f : List ℚ → ℚ) (iD : ℚ) (st : LoopState) : LoopState :=
  let w := lastP st.pairs
  let xr := reflectPt m st.centroid w.2
  let fr := f xr
  if fr < secondF st.pairs then
    stepAccept iD st
      (if fr < firstF st.pairs then
        (if f (expandPt m st.centroid xr) < firstF st.pairs then
           (f (expandPt m st.centroid xr), expandPt m st.centroid xr)
         else (fr, xr))
       else (fr, xr))
  else
    let xc := if fr < w.1 then outsideCt m st.centroid xr else insideCt m st.centroid w.2
    let fc := f xc
    if fc < (if fr < w.1 then fr else w.1) then stepAccept iD st (fc, xc)
    else stepShrink m iD st

/-- The points at which one iteration body invokes the objective, in
call order: `xr` always (line 112); `xe` exactly when the reflection is
accepted and `fr < fl` (line 124); `xc` exactly when the reflection is
not accepted (line 156); the shrinkage loop invokes nothing. -/
def stepTrace (m : Minimizer) (f : List ℚ → ℚ) (st : LoopState) : List (List ℚ) :=
  let xr := reflectPt m st.centroid (lastP st.pairs).2
  let fr := f xr
  if fr < secondF st.pairs then
    if fr < firstF st.pairs then [xr, expandPt m st.centroid xr] else [xr]
  else
    [xr, if fr < (lastP st.pairs).1 then outsideCt m st.centroid xr
         else insideCt m st.centroid (lastP st.pairs).2]

/-- The convergence quantity of the termination test (line 206):
`(fh - fl).abs()` on the freshly sorted vertex list. -/
def fTest (st : LoopState) : ℚ := |lastF st.pairs - firstF st.pairs|

/-- Modelled from the spec: the domain convergence test `test_x`
(maximum absolute value, over all coordinates, of
`worst.point - best.point`).  `Minimizer::minimize` in
`src/minimizer.rs` computes no such quantity; it is defined here only
to state the domain-test clause of the spec against the code. -/
def specTestX (st : LoopState) : ℚ :=
  (vsub (lastX st.pairs) (firstX st.pairs)).foldr (fun x acc => max |x| acc) 0

/-- The perturbed starting point for coordinate `idx` (lines 72-83):
coordinate `idx` of the seed is set to `h` if it is zero, else
multiplied by `h`. -/
def perturb0 (m : Minimizer) (x0 : List ℚ) (idx : Nat) : List ℚ :=
  let xi := x0.getD idx 0
  x0.set idx (if xi = 0 then m.h else xi * m.h)

/-- The initial vertex list of `Minimizer::minimize` (lines 67-87):
`(f(x0), x0)` followed by one perturbed vertex per coordinate. -/
def initPairs (m : Minimizer) (f : List ℚ → ℚ) (x0 : List ℚ) : List Pair :=
  (f x0, x0) ::
    (List.range x0.length).map (fun idx => (f (perturb0 m x0 idx), perturb0 m x0 idx))

/-- The points at which the initialization invokes the objective. -/
def initTrace (m : Minimizer) (x0 : List ℚ) : List (List ℚ) :=
  x0 :: (List.range x0.length).map (perturb0 m x0)

/-- The centroid computed from a sorted vertex list (lines 96-101):
fold `acc + x` over `pairs.iter().rev().skip(1)` starting from the zero
vector, times `inv_dim`.  This is also the spec's `centroid()` (the mean
of all points except the worst), used as the from-scratch reference in
the incremental-update claims. -/
def centroidOf (n : Nat) (pairs : List Pair) : List ℚ :=
  smul ((n : ℚ))⁻¹ ((pairs.dropLast.reverse.map Prod.snd).foldl vadd (zerosVec n))

/-- The loop state right before the first iteration: initial vertices,
sorted, with the centroid computed from scratch (lines 64-101). -/
def initState (m : Minimizer) (f : List ℚ → ℚ) (x0 : List ℚ) : LoopState :=
  let pairs := sortPairs (initPairs m f x0)
  ⟨pairs, centroidOf x0.length pairs⟩

/-- Iteration loop of `Minimizer::minimize`
(`for iter in 0..self.max * x0.dim()`, lines 104-215), with the
remaining iteration count as structural fuel and `iter` the current
index: run one iteration body, then the termination test on the freshly
sorted list; on success return `f_min`/`x_min` from the first vertex and
the current index, else continue; exhausted fuel is `Err(())`. -/
def loopAux (m : Minimizer) (f : List ℚ → ℚ) (iD : ℚ) :
    Nat → Nat → LoopState → Except Unit (ℚ × List ℚ × Nat)
  | 0, _, _ => .error ()
  | fuel + 1, iter, st =>
    let st1 := step m f iD st
    if fTest st1 ≤ m.tol then .ok (firstF st1.pairs, firstX st1.pairs, iter)
    else loopAux m f iD fuel (iter + 1) st1

/-- `Minimizer::minimize` of `src/minimizer.rs`: build and sort the
initial simplex, compute the centroid, then loop at most
`max * dim` times; the success value models the `Output` struct as the
triple `(f_min, x_min, iter)`. -/
def minimize (m : Minimizer) (f : List ℚ → ℚ) (x0 : List ℚ) :
    Except Unit (ℚ × List ℚ × Nat) :=
  loopAux m f ((x0.length : ℚ))⁻¹ (m.max * x0.length) 0 (initState m f x0)

/-- The objective invocations of a full `minimize` run, in call order:
the initialization evaluations followed by those of each executed
iteration. -/
def loopTrace (m : Minimizer) (f : List ℚ → ℚ) (iD : ℚ) :
    Nat → LoopState → List (List ℚ)
  | 0, _ => []
  | fuel + 1, st =>
    let st1 := step m f iD st
    if fTest st1 ≤ m.tol then stepTrace m f st
    else stepTrace m f st ++ loopTrace m f iD fuel st1

/-- Objective-invocation trace of `minimize` (initialization plus all
executed iterations). -/
def minimizeTrace (m : Minimizer) (f : List ℚ → ℚ) (x0 : List ℚ) : List (List ℚ) :=
  initTrace m x0 ++
    loopTrace m f ((x0.length : ℚ))⁻¹ (m.max * x0.length) (initState m f x0)

/-- The loop state after `k` executed iteration bodies of the
`minimize` run on `m`, `f`, `x0`. -/
def stepped (m : Minimizer) (f : List ℚ → ℚ) (x0 : List ℚ) (k : Nat) : LoopState :=
  (step m f ((x0.length : ℚ))⁻¹)^[k] (initState m f x0)

/-- Decidable test for the shrinkage branch being taken by an iteration
body (the conditions of lines 116 and 160 both failing). -/
def takesShrink (m : Minimizer) (f : List ℚ → ℚ) (st : LoopState) : Bool :=
  let w := lastP st.pairs
  let fr := f (reflectPt m st.centroid w.2)
  if fr < secondF st.pairs then false
  else
    let fc := f (if fr < w.1 then outsideCt m st.centroid (reflectPt m st.centroid w.2)
                 else insideCt m st.centroid w.2)
    if fc < (if fr < w.1 then fr else w.1) then false else true

/-- The constant-zero objective (used for concrete runs below). -/
def constZero : List ℚ → ℚ := fun _ => 0

/-- The objective `f(x) = x0` (first coordinate). -/
def firstCoord : List ℚ → ℚ := fun v => v.headD 0

/-- The objective `f(x) = x0^2` of the crate's 1-d test. -/
def squareObj : List ℚ → ℚ := fun v => v.headD 0 * v.headD 0

/-- A table objective on explicit points (2-d), engineered so that the
first iteration from seed `[1, 1]` accepts the reflection without
expanding. -/
def tableObj : List ℚ → ℚ := fun v =>
  if v = [1, 1] then 20
  else if v = [1/20, 1] then 0
  else if v = [1, 1/20] then 10
  else if v = [1/20, 1/20] then 5
  else 99

/-- The default configuration with the iterations parameter set to 1. -/
def maxOne : Minimizer := ⟨1, 1/2, 2, 1/2, 1/20, 1/10000, 1⟩

/-- The default configuration with the iterations parameter set to 2. -/
def maxTwo : Minimizer := ⟨1, 1/2, 2, 1/2, 1/20, 1/10000, 2⟩

/-- Evaluation form of the absolute value on `ℚ`, used to let `simp`
compute the termination test on concrete runs. -/
theorem ratAbs_eval (x : ℚ) : |x| = if x < 0 then -x else x := by
  rcases lt_or_ge x 0 with hx | hx
  · rw [abs_of_neg hx, if_pos hx]
  · rw [abs_of_nonneg hx, if_neg (not_lt.2 hx)]

/-- The fused update coincides with add-after-scale:
`scaled_add a rhs` is `self + a·rhs`. -/
theorem scaledAdd_eq_vadd (a : ℚ) : ∀ u r : List ℚ, scaledAdd u a r = vadd u (smul a r)
  | [], r => by cases r <;> simp [scaledAdd, vadd, smul]
  | x :: u, [] => by simp [scaledAdd, vadd, smul]
  | x :: u, y :: r => by
      simp only [scaledAdd, vadd, smul, List.map_cons, List.zipWith_cons_cons,
        List.cons.injEq]
      exact ⟨by ring, scaledAdd_eq_vadd a u r⟩

/-- The code's inside contraction `(1-b)·C + b·W` equals the spec form
`C + b·(W - C)`. -/
theorem insideCt_eq (m : Minimizer) :
    ∀ c w : List ℚ, insideCt m c w = vadd c (smul m.b (vsub w c))
  | [], w => by cases w <;> simp [insideCt, vadd, smul, vsub]
  | x :: c, [] => by simp [insideCt, vadd, smul, vsub]
  | x :: c, y :: w => by
      simp only [insideCt, vadd, smul, vsub, List.map_cons, List.zipWith_cons_cons,
        List.cons.injEq]
      refine ⟨by ring, ?_⟩
      have ih := insideCt_eq m c w
      simpa [insideCt, vadd, smul, vsub] using ih

/-- With the reflection coefficient `a = 1` (its only constructible
value, since the fields are private and only `Default` exists), the
code's outside contraction `(1-b)·C + b·Xr` equals the spec form
`C + b·(C - W)`. -/
theorem outsideCt_eq (m : Minimizer) (hA : m.a = 1) :
    ∀ c w : List ℚ, outsideCt m c (reflectPt m c w) = vadd c (smul m.b (vsub c w))
  | [], w => by cases w <;> simp [outsideCt, reflectPt, vadd, smul, vsub]
  | x :: c, [] => by simp [outsideCt, reflectPt, vadd, smul, vsub]
  | x :: c, y :: w => by
      simp only [outsideCt, reflectPt, vadd, smul, vsub, List.map_cons,
        List.zipWith_cons_cons, List.cons.injEq]
      refine ⟨by rw [hA]; ring, ?_⟩
      have ih := outsideCt_eq m hA c w
      simpa [outsideCt, reflectPt, vadd, smul, vsub] using ih

/-- The code's `if fr < fh { fr } else { fh }` (line 159) is `min`. -/
theorem ite_lt_eq_min (x y : ℚ) : (if x < y then x else y) = min x y := by
  rcases lt_or_ge x y with hx | hx
  · rw [if_pos hx, min_eq_left hx.le]
  · rw [if_neg (not_lt.2 hx), min_eq_right hx]

/-- Inserting into the sorted list adds one element. -/
theorem length_insertP (p : Pair) : ∀ l : List Pair, (insertP p l).length = l.length + 1
  | [] => rfl
  | q :: qs => by
      simp only [insertP]
      split
      · simp
      · simp [length_insertP p qs]

/-- Membership in an insertion. -/
theorem mem_insertP (x p : Pair) : ∀ l : List Pair, x ∈ insertP p l ↔ x = p ∨ x ∈ l
  | [] => by simp [insertP]
  | q :: qs => by
      simp only [insertP]
      split
      · simp [or_comm, or_assoc, or_left_comm]
      · simp [mem_insertP x p qs]
        tauto

/-- Sorting preserves the length. -/
theorem length_sortPairs : ∀ l : List Pair, (sortPairs l).length = l.length
  | [] => rfl
  | p :: ps => by simp [sortPairs, length_insertP, length_sortPairs ps]

/-- Sorting preserves membership. -/
theorem mem_sortPairs (x : Pair) : ∀ l : List Pair, x ∈ sortPairs l ↔ x ∈ l
  | [] => Iff.rfl
  | p :: ps => by simp [sortPairs, mem_insertP, mem_sortPairs x ps]

/-- The last vertex of a nonempty list is a member. -/
theorem lastP_mem : ∀ l : List Pair, l ≠ [] → lastP l ∈ l
  | a :: t, _ => by
      have h := List.getLastD_mem_cons t a
      rw [lastP, List.getLastD_cons]
      exact h

/-- The first vertex of a nonempty list is a member. -/
theorem firstP_mem : ∀ l : List Pair, l ≠ [] → firstP l ∈ l
  | a :: t, _ => by simp [firstP]

/-- If the loop returns success, it does so at the first iteration whose
termination test passes, and the output fields come from the first
vertex of the freshly sorted simplex of that iteration. -/
theorem loopAux_ok_mp (m : Minimizer) (f : List ℚ → ℚ) (iD : ℚ) :
    ∀ (fuel iter : Nat) (st : LoopState) (out : ℚ × List ℚ × Nat),
      loopAux m f iD fuel iter st = .ok out →
      ∃ j : Nat, j < fuel ∧ out.2.2 = iter + j ∧
        (∀ i, i < j → ¬ fTest ((step m f iD)^[i + 1] st) ≤ m.tol) ∧
        fTest ((step m f iD)^[j + 1] st) ≤ m.tol ∧
        out.1 = firstF ((step m f iD)^[j + 1] st).pairs ∧
        out.2.1 = firstX ((step m f iD)^[j + 1] st).pairs
  | 0, iter, st, out => by simp [loopAux]
  | fuel + 1, iter, st, out => by
      intro h
      simp only [loopAux] at h
      by_cases hc : fTest (step m f iD st) ≤ m.tol
      · rw [if_pos hc] at h
        refine ⟨0, Nat.succ_pos _, ?_, ?_, ?_, ?_, ?_⟩
        · simp only [Except.ok.injEq] at h
          rw [← h]
          simp
        · intro i hi; omega
        · simpa [Function.iterate_one] using hc
        · simp only [Except.ok.injEq] at h
          rw [← h]
          simp [Function.iterate_one]
        · simp only [Except.ok.injEq] at h
          rw [← h]
          simp [Function.iterate_one]
      · rw [if_neg hc] at h
        obtain ⟨j, hj, hiter, hmin, hconv, h1, h2⟩ :=
          loopAux_ok_mp m f iD fuel (iter + 1) (step m f iD st) out h
        refine ⟨j + 1, by omega, by omega, ?_, ?_, ?_, ?_⟩
        · intro i hi
          match i with
          | 0 => simpa [Function.iterate_one] using hc
          | i' + 1 =>
            have hm := hmin i' (by omega)
            simpa [Function.iterate_succ_apply] using hm
        · simpa [Function.iterate_succ_apply] using hconv
        · simpa [Function.iterate_succ_apply] using h1
        · simpa [Function.iterate_succ_apply] using h2

/-- If the termination test passes at iteration `j` within the fuel and
at no earlier iteration, the loop returns success with index `iter + j`
and the first vertex of that iteration's sorted simplex; the
function-value test is the only gate (no domain test exists). -/
theorem loopAux_ok_mpr (m : Minimizer) (f : List ℚ → ℚ) (iD : ℚ) :
    ∀ (fuel iter j : Nat) (st : LoopState), j < fuel →
      (∀ i, i < j → ¬ fTest ((step m f iD)^[i + 1] st) ≤ m.tol) →
      fTest ((step m f iD)^[j + 1] st) ≤ m.tol →
      loopAux m f iD fuel iter st =
        .ok (firstF ((step m f iD)^[j + 1] st).pairs,
             firstX ((step m f iD)^[j + 1] st).pairs, iter + j)
  | 0, _, j, _, hj, _, _ => absurd hj (Nat.not_lt_zero j)
  | fuel + 1, iter, 0, st, _, _, hconv => by
      have hc : fTest (step m f iD st) ≤ m.tol := by
        simpa [Function.iterate_one] using hconv
      simp only [loopAux, if_pos hc]
      simp [Function.iterate_one]
  | fuel + 1, iter, j + 1, st, hj, hmin, hconv => by
      have h0 : ¬ fTest (step m f iD st) ≤ m.tol := by
        have hm := hmin 0 (Nat.succ_pos j)
        simpa [Function.iterate_one] using hm
      simp only [loopAux, if_neg h0]
      have ih := loopAux_ok_mpr m f iD fuel (iter + 1) j (step m f iD st) (by omega)
        (fun i hi => by
          have hm := hmin (i + 1) (by omega)
          simpa [Function.iterate_succ_apply] using hm)
        (by simpa [Function.iterate_succ_apply] using hconv)
      have harith : iter + (j + 1) = iter + 1 + j := by omega
      rw [harith]
      simp only [Function.iterate_succ_apply] at ih ⊢
      exact ih

/-- If the loop returns failure, the termination test failed at every
iteration within the fuel. -/
theorem loopAux_err (m : Minimizer) (f : List ℚ → ℚ) (iD : ℚ) :
    ∀ (fuel iter : Nat) (st : LoopState) (e : Unit),
      loopAux m f iD fuel iter st = .error e →
      ∀ i, i < fuel → ¬ fTest ((step m f iD)^[i + 1] st) ≤ m.tol
  | 0, _, _, _ => fun _ i hi => absurd hi (Nat.not_lt_zero i)
  | fuel + 1, iter, st, e => by
      intro h i hi
      simp only [loopAux] at h
      by_cases hc : fTest (step m f iD st) ≤ m.tol
      · rw [if_pos hc] at h
        exact Except.noConfusion h
      · rw [if_neg hc] at h
        match i with
        | 0 => simpa [Function.iterate_one] using hc
        | i' + 1 =>
          have hrec := loopAux_err m f iD fuel (iter + 1) (step m f iD st) e h i' (by omega)
          simpa [Function.iterate_succ_apply] using hrec

/-- The well-formedness invariant of the loop state for dimension `n`:
nonempty vertex list, all points of length `n`, centroid of length `n`. -/
def VLen (n : Nat) (st : LoopState) : Prop :=
  st.pairs ≠ [] ∧ (∀ p ∈ st.pairs, (p.2 : List ℚ).length = n) ∧ st.centroid.length = n

/-- Length of an elementwise sum. -/
theorem length_vadd (u v : List ℚ) : (vadd u v).length = min u.length v.length :=
  List.length_zipWith ..

/-- Length of an elementwise difference. -/
theorem length_vsub (u v : List ℚ) : (vsub u v).length = min u.length v.length :=
  List.length_zipWith ..

/-- Length of a scaled vector. -/
theorem length_smul (c : ℚ) (v : List ℚ) : (smul c v).length = v.length :=
  List.length_map ..

/-- Length of a fused update. -/
theorem length_scaledAdd (u : List ℚ) (a : ℚ) (r : List ℚ) :
    (scaledAdd u a r).length = min u.length r.length :=
  List.length_zipWith ..

/-- Folding vector additions over same-length vectors keeps the length. -/
theorem length_foldl_vadd :
    ∀ (l : List (List ℚ)) (acc : List ℚ), (∀ v ∈ l, v.length = acc.length) →
      (l.foldl vadd acc).length = acc.length
  | [], _, _ => rfl
  | v :: l, acc, hl => by
      have hacc : (vadd acc v).length = acc.length := by
        rw [length_vadd, hl v (List.mem_cons_self v l), min_self]
      rw [List.foldl_cons,
        length_foldl_vadd l (vadd acc v)
          (fun u hu => by rw [hacc, hl u (List.mem_cons_of_mem v hu)]),
        hacc]

/-- Membership after a pull update and re-sort: every vertex is the
pushed candidate or one of the previous vertices. -/
theorem mem_replace (l : List Pair) (q p : Pair) :
    p ∈ sortPairs (l.dropLast ++ [q]) → p = q ∨ p ∈ l := by
  intro hp
  rw [mem_sortPairs] at hp
  rcases List.mem_append.1 hp with hp | hp
  · exact Or.inr ((List.dropLast_sublist l).subset hp)
  · simpa using Or.inl (List.mem_singleton.1 hp)

/-- The sorted pull-update result is nonempty. -/
theorem replace_ne_nil (l : List Pair) (q : Pair) :
    sortPairs (l.dropLast ++ [q]) ≠ [] := by
  intro hcon
  have hlen := congrArg List.length hcon
  rw [length_sortPairs, List.length_append] at hlen
  simp at hlen

/-- Points of the inline shrinkage result keep their length. -/
theorem shrinkTail_length (n : Nat) (d : ℚ) (xl : List ℚ) (hxl : xl.length = n) :
    ∀ l : List Pair, (∀ p ∈ l, (p.2 : List ℚ).length = n) →
      ∀ p ∈ shrinkTail d xl l, (p.2 : List ℚ).length = n := by
  intro l hl p hp
  cases l with
  | nil => simp [shrinkTail] at hp
  | cons p0 rest =>
      simp only [shrinkTail, List.mem_cons] at hp
      rcases hp with hp | hp
      · rw [hp]; exact hl p0 (List.mem_cons_self p0 rest)
      · rcases List.mem_map.1 hp with ⟨q, hq, hpq⟩
        rw [← hpq]
        simp only [length_scaledAdd, length_smul]
        rw [hl q (List.mem_cons_of_mem p0 hq), hxl, min_self]

/-- The accepted-candidate update preserves the invariant, provided the
candidate's point has the right length. -/
theorem vlen_stepAccept (n : Nat) (iD : ℚ) (st : LoopState) (cand : Pair)
    (h1 : st.pairs ≠ []) (h2 : ∀ p ∈ st.pairs, (p.2 : List ℚ).length = n)
    (h3 : st.centroid.length = n) (hc : (cand.2 : List ℚ).length = n) :
    VLen n (stepAccept iD st cand) := by
  refine ⟨replace_ne_nil _ _, ?_, ?_⟩
  · intro p hp
    rcases mem_replace _ _ _ hp with hp | hp
    · rw [hp]; exact hc
    · exact h2 p hp
  · show (scaledAdd st.centroid iD
      (vsub (lastX st.pairs) (lastX (sortPairs (st.pairs.dropLast ++ [cand]))))).length = n
    have hw : (lastX st.pairs).length = n := h2 _ (lastP_mem _ h1)
    have hw' : (lastX (sortPairs (st.pairs.dropLast ++ [cand]))).length = n := by
      rcases mem_replace st.pairs cand _ (lastP_mem _ (replace_ne_nil st.pairs cand)) with hp | hp
      · rw [lastX, hp]; exact hc
      · exact h2 _ hp
    rw [length_scaledAdd, length_vsub, hw, hw', min_self, h3, min_self]

/-- The shrinkage branch preserves the invariant. -/
theorem vlen_stepShrink (n : Nat) (m : Minimizer) (iD : ℚ) (st : LoopState)
    (h1 : st.pairs ≠ []) (h2 : ∀ p ∈ st.pairs, (p.2 : List ℚ).length = n)
    (h3 : st.centroid.length = n) : VLen n (stepShrink m iD st) := by
  have hxl : (firstX st.pairs).length = n := h2 _ (firstP_mem _ h1)
  have hshr := shrinkTail_length n m.d (firstX st.pairs) hxl st.pairs h2
  refine ⟨replace_ne_nil _ _, ?_, ?_⟩
  · intro p hp
    rcases mem_replace _ _ _ hp with hp | hp
    · rw [hp]; exact h2 _ (lastP_mem _ h1)
    · exact hshr p hp
  · show (scaledAdd (vadd (smul (1 - m.d) (firstX st.pairs)) (smul m.d st.centroid)) iD
      (vsub (lastX st.pairs)
        (lastX (sortPairs ((shrinkTail m.d (firstX st.pairs) st.pairs).dropLast ++
          [lastP st.pairs]))))).length = n
    have hw : (lastX st.pairs).length = n := h2 _ (lastP_mem _ h1)
    have hw' : (lastX (sortPairs ((shrinkTail m.d (firstX st.pairs) st.pairs).dropLast ++
        [lastP st.pairs]))).length = n := by
      rcases mem_replace (shrinkTail m.d (firstX st.pairs) st.pairs) (lastP st.pairs) _
          (lastP_mem _ (replace_ne_nil _ _)) with hp | hp
      · rw [lastX, hp]; exact h2 _ (lastP_mem _ h1)
      · exact hshr _ hp
    rw [length_scaledAdd, length_vadd, length_smul, length_smul, hxl, h3, min_self,
      length_vsub, hw, hw', min_self, min_self]

/-- One iteration body preserves the invariant. -/
theorem vlen_step (n : Nat) (m : Minimizer) (f : List ℚ → ℚ) (iD : ℚ) (st : LoopState)
    (hst : VLen n st) : VLen n (step m f iD st) := by
  obtain ⟨h1, h2, h3⟩ := hst
  have hw : ((lastP st.pairs).2 : List ℚ).length = n := h2 _ (lastP_mem _ h1)
  have hxr : (reflectPt m st.centroid (lastP st.pairs).2).length = n := by
    rw [reflectPt, length_vsub, length_smul, length_smul, h3, hw, min_self]
  have hxe : (expandPt m st.centroid (reflectPt m st.centroid (lastP st.pairs).2)).length = n := by
    rw [expandPt, length_vadd, length_smul, length_smul, h3, hxr, min_self]
  have hxo : (outsideCt m st.centroid (reflectPt m st.centroid (lastP st.pairs).2)).length = n := by
    rw [outsideCt, length_vadd, length_smul, length_smul, h3, hxr, min_self]
  have hxi : (insideCt m st.centroid (lastP st.pairs).2).length = n := by
    rw [insideCt, length_vadd, length_smul, length_smul, h3, hw, min_self]
  simp only [step]
  by_cases hacc : f (reflectPt m st.centroid (lastP st.pairs).2) < secondF st.pairs
  · rw [if_pos hacc]
    apply vlen_stepAccept n iD st _ h1 h2 h3
    split
    · split
      · exact hxe
      · exact hxr
    · exact hxr
  · rw [if_neg hacc]
    by_cases hE : f (reflectPt m st.centroid (lastP st.pairs).2) < (lastP st.pairs).1
    · simp only [if_pos hE]
      split
      · apply vlen_stepAccept n iD st _ h1 h2 h3
        exact hxo
      · exact vlen_stepShrink n m iD st h1 h2 h3
    · simp only [if_neg hE]
      split
      · apply vlen_stepAccept n iD st _ h1 h2 h3
        exact hxi
      · exact vlen_stepShrink n m iD st h1 h2 h3

/-- The perturbed starting points keep the seed's length. -/
theorem length_perturb0 (m : Minimizer) (x0 : List ℚ) (idx : Nat) :
    (perturb0 m x0 idx).length = x0.length := by
  simp [perturb0, List.length_set]

/-- The state entering the first iteration satisfies the invariant. -/
theorem vlen_initState (m : Minimizer) (f : List ℚ → ℚ) (x0 : List ℚ) :
    VLen x0.length (initState m f x0) := by
  have hmem : ∀ p ∈ sortPairs (initPairs m f x0), (p.2 : List ℚ).length = x0.length := by
    intro p hp
    rw [mem_sortPairs] at hp
    simp only [initPairs, List.mem_cons] at hp
    rcases hp with hp | hp
    · rw [hp]
    · rcases List.mem_map.1 hp with ⟨idx, _, hpq⟩
      rw [← hpq]
      exact length_perturb0 m x0 idx
  have hne : sortPairs (initPairs m f x0) ≠ [] := by
    intro hcon
    have hlen := congrArg List.length hcon
    rw [length_sortPairs] at hlen
    simp [initPairs] at hlen
  refine ⟨hne, hmem, ?_⟩
  show (centroidOf x0.length (sortPairs (initPairs m f x0))).length = x0.length
  rw [centroidOf, length_smul]
  rw [length_foldl_vadd _ _ ?_]
  · simp [zerosVec]
  · intro v hv
    rcases List.mem_map.1 hv with ⟨p, hp, hpv⟩
    rw [List.mem_reverse] at hp
    rw [← hpv, hmem p ((List.dropLast_sublist _).subset hp)]
    simp [zerosVec]

/-- Every reachable loop state satisfies the invariant. -/
theorem vlen_stepped (m : Minimizer) (f : List ℚ → ℚ) (x0 : List ℚ) :
    ∀ k, VLen x0.length (stepped m f x0 k)
  | 0 => by
      rw [stepped, Function.iterate_zero_apply]
      exact vlen_initState m f x0
  | k + 1 => by
      rw [stepped, Function.iterate_succ_apply']
      exact vlen_step _ _ _ _ _ (vlen_stepped m f x0 k)

/-- C8.  For every successful run of `minimize`, `x_min` has the seed's
length, `iter` is strictly below the cap `max * n`, and `f_min` and
`x_min` are the STORED value and point of the first (best) vertex of
the loop state after iteration `iter` — the cached evaluation, not a
fresh one. -/
theorem minimize_success_postcondition (m : Minimizer) (f : List ℚ → ℚ) (x0 : List ℚ)
    (out : ℚ × List ℚ × Nat) (hok : minimize m f x0 = .ok out) :
    out.2.1.length = x0.length ∧
    out.2.2 < m.max * x0.length ∧
    out.1 = firstF (stepped m f x0 (out.2.2 + 1)).pairs ∧
    out.2.1 = firstX (stepped m f x0 (out.2.2 + 1)).pairs := by
  obtain ⟨j, hj, hiter, hmin, hconv, h1, h2⟩ :=
    loopAux_ok_mp m f ((x0.length : ℚ))⁻¹ (m.max * x0.length) 0 (initState m f x0) out hok
  have hj' : out.2.2 = j := by omega
  have hx : out.2.1 = firstX (stepped m f x0 (j + 1)).pairs := h2
  refine ⟨?_, by omega, ?_, ?_⟩
  · rw [hx]
    obtain ⟨hne, hmem, _⟩ := vlen_stepped m f x0 (j + 1)
    exact hmem _ (firstP_mem _ hne)
  · rw [hj']; exact h1
  · rw [hj']; exact h2

/-- C1 (amended).  Success of `minimize` is gated by the function-value
test ALONE: if a run returns success with index `iter`, the test
`|worst.value - best.value| ≤ tol` passed at iteration `iter` (and at no
earlier one); conversely, whenever that test first passes within the
cap, success is returned — no domain test on the points is consulted. -/
theorem minimize_success_iff_sole_ftest (m : Minimizer) (f : List ℚ → ℚ) (x0 : List ℚ) :
    (∀ out : ℚ × List ℚ × Nat, minimize m f x0 = .ok out →
      out.2.2 < m.max * x0.length ∧
      fTest (stepped m f x0 (out.2.2 + 1)) ≤ m.tol ∧
      ∀ i, i < out.2.2 → ¬ fTest (stepped m f x0 (i + 1)) ≤ m.tol) ∧
    (∀ j, j < m.max * x0.length →
      (∀ i, i < j → ¬ fTest (stepped m f x0 (i + 1)) ≤ m.tol) →
      fTest (stepped m f x0 (j + 1)) ≤ m.tol →
      minimize m f x0 =
        .ok (firstF (stepped m f x0 (j + 1)).pairs,
             firstX (stepped m f x0 (j + 1)).pairs, j)) := by
  constructor
  · intro out hok
    obtain ⟨j, hj, hiter, hmin, hconv, _, _⟩ :=
      loopAux_ok_mp m f ((x0.length : ℚ))⁻¹ (m.max * x0.length) 0 (initState m f x0) out hok
    have hj' : out.2.2 = j := by omega
    rw [hj']
    exact ⟨by omega, hconv, hmin⟩
  · intro j hj hmin hconv
    have h := loopAux_ok_mpr m f ((x0.length : ℚ))⁻¹ (m.max * x0.length) 0 j
      (initState m f x0) hj hmin hconv
    rw [minimize, h]
    simp only [stepped, Nat.zero_add]

/-- C6 (amended).  When `minimize` fails, the failure value is the unit
value `()` (the error type of `minimize` is `()`, so the failure carries
no data, in particular not the cap), and the function-value test failed
at every one of the `max * n` iterations — iteration-cap exhaustion is
the only error path. -/
theorem minimize_error_unit_and_cap_exhaustion (m : Minimizer) (f : List ℚ → ℚ)
    (x0 : List ℚ) (e : Unit) (herr : minimize m f x0 = .error e) :
    e = () ∧ ∀ i, i < m.max * x0.length → ¬ fTest (stepped m f x0 (i + 1)) ≤ m.tol :=
  ⟨rfl, loopAux_err m f ((x0.length : ℚ))⁻¹ (m.max * x0.length) 0 (initState m f x0) e herr⟩

/-- C10.  On the empty seed (`n = 0`) `minimize` returns (it cannot
panic in the model, and in the source no `unwrap` in the loop body is
reached because the loop bound `max * 0` is `0`): the result is the
iteration-cap failure `Err(())`, zero iteration bodies run, and the
objective is invoked exactly once, on the empty point. -/
theorem minimize_empty_seed (m : Minimizer) (f : List ℚ → ℚ) :
    minimize m f [] = .error () ∧ minimizeTrace m f [] = [[]] :=
  ⟨rfl, rfl⟩

/-- Indexing a mapped list below its length. -/
theorem getD_map_lt {α β : Type} (g : α → β) (dA : α) (dB : β) :
    ∀ (l : List α) (i : Nat), i < l.length → (l.map g).getD i dB = g (l.getD i dA)
  | p :: t, 0, _ => rfl
  | p :: t, i + 1, hlt => by
      simp only [List.map_cons, List.getD_cons_succ]
      exact getD_map_lt g dA dB t i (by simpa using hlt)

/-- Indexing `List.range` below its length. -/
theorem getD_range_lt : ∀ (n i : Nat), i < n → (List.range n).getD i 0 = i := by
  intro n i hlt
  rw [List.getD_eq_getElem (List.range n) 0
    (show i < (List.range n).length by simpa using hlt)]
  exact List.getElem_range i (by simpa using hlt)

/-- Reading the written position of `List.set`. -/
theorem getD_set_self : ∀ (l : List ℚ) (i : Nat) (v : ℚ), i < l.length →
    (l.set i v).getD i 0 = v
  | x :: t, 0, v, _ => rfl
  | x :: t, i + 1, v, hlt => by
      simp only [List.set_cons_succ, List.getD_cons_succ]
      exact getD_set_self t i v (by simpa using hlt)

/-- Reading any other position of `List.set`. -/
theorem getD_set_other : ∀ (l : List ℚ) (i j : Nat) (v : ℚ), j ≠ i →
    (l.set i v).getD j 0 = l.getD j 0
  | [], _, _, _, _ => by simp
  | x :: t, 0, 0, v, hne => absurd rfl hne
  | x :: t, 0, j + 1, v, _ => by simp [List.getD_cons_succ]
  | x :: t, i + 1, 0, v, _ => by simp [List.set_cons_succ]
  | x :: t, i + 1, j + 1, v, hne => by
      simp only [List.set_cons_succ, List.getD_cons_succ]
      exact getD_set_other t i j v (by omega)

/-- C2.  `Simplex::shrink` keeps the vertex count and the best (first)
vertex — value and point — unchanged, and for every other index the new
point is `d·point + (1-d)·best_point` with the stored value re-evaluated
as the objective at exactly that new point. -/
theorem shrink_rewrites_tail_and_reevaluates (mg : MinimizerG) (f : List ℚ → ℚ)
    (best : Pair) (rest : List Pair) (i : Nat) (hi : i < rest.length) :
    (Simplex.shrink mg f (best :: rest)).length = rest.length + 1 ∧
    firstP (Simplex.shrink mg f (best :: rest)) = best ∧
    ((Simplex.shrink mg f (best :: rest)).getD (i + 1) dfltPair).2
      = vadd (smul mg.d ((best :: rest).getD (i + 1) dfltPair).2)
          (smul (1 - mg.d) best.2) ∧
    ((Simplex.shrink mg f (best :: rest)).getD (i + 1) dfltPair).1
      = f (((Simplex.shrink mg f (best :: rest)).getD (i + 1) dfltPair).2) := by
  have hmap : (Simplex.shrink mg f (best :: rest)).getD (i + 1) dfltPair
      = (let x := scaledAdd (smul mg.d ((rest.getD i dfltPair).2)) (1 - mg.d) best.2
         (f x, x)) := by
    simp only [Simplex.shrink, List.getD_cons_succ]
    rw [getD_map_lt _ dfltPair dfltPair rest i hi]
  refine ⟨by simp [Simplex.shrink], rfl, ?_, ?_⟩
  · rw [hmap, List.getD_cons_succ]
    exact scaledAdd_eq_vadd (1 - mg.d) (smul mg.d (rest.getD i dfltPair).2) best.2
  · rw [hmap]

/-- C3.  `Simplex::new` on a seed of length `n ≥ 1` yields `n + 1`
vertices: vertex 0 is `(f(seed), seed)`, and vertex `i+1` stores the
objective evaluated at its point, which has length `n` and agrees with
the seed everywhere except coordinate `i`, where it is `step_zero` if
the seed coordinate is exactly zero and the coordinate times
`(1 + step)` otherwise. -/
theorem simplex_new_spec (mg : MinimizerG) (f : List ℚ → ℚ) (seed : List ℚ)
    (hn : 1 ≤ seed.length) :
    (Simplex.new mg f seed).length = seed.length + 1 ∧
    firstP (Simplex.new mg f seed) = (f seed, seed) ∧
    ∀ i, i < seed.length →
      ((Simplex.new mg f seed).getD (i + 1) dfltPair).1
        = f (((Simplex.new mg f seed).getD (i + 1) dfltPair).2) ∧
      (((Simplex.new mg f seed).getD (i + 1) dfltPair).2).length = seed.length ∧
      ∀ j, j < seed.length →
        (((Simplex.new mg f seed).getD (i + 1) dfltPair).2).getD j 0
          = if j = i then
              (if seed.getD i 0 = 0 then mg.step_zero else seed.getD i 0 * (1 + mg.step))
            else seed.getD j 0 := by
  refine ⟨by simp [Simplex.new], rfl, ?_⟩
  intro i hi
  have hmap : (Simplex.new mg f seed).getD (i + 1) dfltPair
      = (f (seed.set i (if seed.getD i 0 = 0 then mg.step_zero
            else seed.getD i 0 * (1 + mg.step))),
         seed.set i (if seed.getD i 0 = 0 then mg.step_zero
            else seed.getD i 0 * (1 + mg.step))) := by
    simp only [Simplex.new, List.getD_cons_succ]
    rw [getD_map_lt _ 0 dfltPair _ i (by simpa using hi), getD_range_lt _ i hi]
  refine ⟨by rw [hmap], by rw [hmap]; simpa using List.length_set .., ?_⟩
  intro j hj
  rw [hmap]
  by_cases hji : j = i
  · rw [if_pos hji, hji, getD_set_self seed i _ hi]
  · rw [if_neg hji, getD_set_other seed i j _ hji]

/-- Vertex list produced by an accepted-candidate update. -/
theorem stepAccept_pairs (iD : ℚ) (st : LoopState) (cand : Pair) :
    (stepAccept iD st cand).pairs = sortPairs (st.pairs.dropLast ++ [cand]) := rfl

/-- Vertex list produced by the shrinkage branch. -/
theorem stepShrink_pairs (m : Minimizer) (iD : ℚ) (st : LoopState) :
    (stepShrink m iD st).pairs =
      sortPairs ((shrinkTail m.d (firstX st.pairs) st.pairs).dropLast ++ [lastP st.pairs]) := rfl

/-- C4.  In every iteration reaching the contraction step (reflection
value `fr` not strictly below the second-worst value), and with the
reflection coefficient at its only constructible value `a = 1`, the
contraction trial point equals the SPEC's form — the outside contraction
`C + b·(C - W.point)` when `fr < W.value`, the inside contraction
`C + b·(W.point - C)` otherwise — and the candidate `(Fc, Xc)` replaces
the worst vertex if and only if `Fc < min(Fr, W.value)`; otherwise the
shrinkage branch runs. -/
theorem contraction_spec_points_and_acceptance (m : Minimizer) (f : List ℚ → ℚ)
    (iD : ℚ) (st : LoopState) (w : Pair) (fr : ℚ) (xc : List ℚ) (fc : ℚ)
    (hA : m.a = 1)
    (hw : w = lastP st.pairs)
    (hfr : fr = f (reflectPt m st.centroid w.2))
    (hGate : ¬ fr < secondF st.pairs)
    (hxc : xc = if fr < w.1 then vadd st.centroid (smul m.b (vsub st.centroid w.2))
                else vadd st.centroid (smul m.b (vsub w.2 st.centroid)))
    (hfc : fc = f xc) :
    (step m f iD st).pairs =
      if fc < min fr w.1 then sortPairs (st.pairs.dropLast ++ [(fc, xc)])
      else sortPairs ((shrinkTail m.d (firstX st.pairs) st.pairs).dropLast ++ [w]) := by
  subst hw
  subst hxc
  subst hfc
  subst hfr
  simp only [step]
  rw [if_neg hGate]
  by_cases hlt : f (reflectPt m st.centroid (lastP st.pairs).2) < (lastP st.pairs).1
  · simp only [if_pos hlt]
    rw [outsideCt_eq m hA st.centroid (lastP st.pairs).2]
    rw [min_eq_left hlt.le]
    rw [apply_ite (fun s : LoopState => s.pairs), stepAccept_pairs, stepShrink_pairs]
  · simp only [if_neg hlt]
    rw [insideCt_eq m st.centroid (lastP st.pairs).2]
    rw [min_eq_right (le_of_not_lt hlt)]
    rw [apply_ite (fun s : LoopState => s.pairs), stepAccept_pairs, stepShrink_pairs]

/-- C5 (amended).  The replace step performed after a shrink — pop the
last vertex, push the retained pre-iteration worst `(fh, xh)` — leaves
the post-shrink vertex multiset unchanged IF AND ONLY IF the shrunk last
vertex still equals `(fh, xh)`; in general the replace UNDOES the shrink
on the worst slot rather than being a no-op. -/
theorem shrink_replace_noop_iff_worst_fixed (d : ℚ) (xl : List ℚ) (fh : ℚ) (xh : List ℚ)
    (pairs : List Pair) (hne : pairs ≠ []) :
    (Multiset.ofList ((shrinkTail d xl pairs).dropLast ++ [(fh, xh)])
       = Multiset.ofList (shrinkTail d xl pairs))
    ↔ lastP (shrinkTail d xl pairs) = (fh, xh) := by
  have hsne : shrinkTail d xl pairs ≠ [] := by
    cases pairs with
    | nil => exact absurd rfl hne
    | cons p0 rest => simp [shrinkTail]
  have hlastP : lastP (shrinkTail d xl pairs) = (shrinkTail d xl pairs).getLast hsne := by
    rw [lastP, List.getLastD_eq_getLast?, List.getLast?_eq_getLast _ hsne, Option.getD_some]
  have hdecomp := List.dropLast_append_getLast hsne
  show ((shrinkTail d xl pairs).dropLast ++ [(fh, xh)] : Multiset Pair)
      = (shrinkTail d xl pairs : Multiset Pair) ↔ _
  rw [Multiset.coe_eq_coe]
  constructor
  · intro hperm
    nth_rewrite 2 [← hdecomp] at hperm
    rw [List.perm_append_left_iff _, List.singleton_perm_singleton] at hperm
    rw [hlastP]
    exact hperm.symm
  · intro hlast
    nth_rewrite 2 [← hdecomp]
    rw [List.perm_append_left_iff _, List.singleton_perm_singleton]
    rw [hlastP] at hlast
    exact hlast.symm

/-- C7 (amended).  Every iteration body invokes the objective at least
once and at most twice: once for the reflection always, and at most one
more — for the expansion (when `fr < fl`) or for the contraction (when
the reflection is rejected); the inline shrinkage loop of this
implementation re-evaluates nothing. -/
theorem stepTrace_length_bounds (m : Minimizer) (f : List ℚ → ℚ) (st : LoopState) :
    1 ≤ (stepTrace m f st).length ∧ (stepTrace m f st).length ≤ 2 := by
  simp only [stepTrace]
  split
  · split <;> simp
  · simp


/-- Shared concrete run: under the default configuration, the constant
objective 0 with seed `[1]` converges at iteration 0 with best vertex
`(0, [1])` (the run takes the shrinkage branch and then passes the
function-value test trivially). -/
theorem run_constZero_ok : minimize Minimizer.default constZero [1] = .ok (0, [1], 0) := by
  have h := loopAux_ok_mpr Minimizer.default constZero ((([1] : List ℚ).length : ℚ))⁻¹
    (Minimizer.default.max * ([1] : List ℚ).length) 0 0
    (initState Minimizer.default constZero [1])
    (by norm_num [Minimizer.default]) (fun i hi => absurd hi (by omega))
    (by norm_num [fTest, initState, initPairs, perturb0, sortPairs, insertP, centroidOf, zerosVec, vadd, vsub, smul, scaledAdd, step, stepAccept, stepShrink, shrinkTail, reflectPt, expandPt, outsideCt, insideCt, lastP, firstP, lastX, firstX, lastF, firstF, secondF, dfltPair, ratAbs_eval, List.replicate, Function.iterate_one, Minimizer.default, constZero])
  rw [minimize, h]
  norm_num [initState, initPairs, perturb0, sortPairs, insertP, centroidOf, zerosVec, vadd, vsub, smul, scaledAdd, step, stepAccept, stepShrink, shrinkTail, reflectPt, expandPt, outsideCt, insideCt, lastP, firstP, lastX, firstX, lastF, firstF, secondF, dfltPair, ratAbs_eval, List.replicate, Function.iterate_one, Minimizer.default, constZero]

/-- C1 counterexample: on the run of `minimize` with the default
configuration, the constant-zero objective and seed `[1]`, success is
returned at iteration 0 although the spec's domain test evaluates to
`19/20`, far above the tolerance `1/10000`: success IS returned when
only the function-value test holds. -/
theorem success_without_domain_test_cex :
    minimize Minimizer.default constZero [1] = .ok (0, [1], 0) ∧
    ¬ specTestX (stepped Minimizer.default constZero [1] 1) ≤ Minimizer.default.tol := by
  refine ⟨run_constZero_ok, ?_⟩
  norm_num [specTestX, stepped, initState, initPairs, perturb0, sortPairs, insertP, centroidOf, zerosVec, vadd, vsub, smul, scaledAdd, step, stepAccept, stepShrink, shrinkTail, reflectPt, expandPt, outsideCt, insideCt, lastP, firstP, lastX, firstX, lastF, firstF, secondF, dfltPair, ratAbs_eval, List.replicate, Function.iterate_one, Minimizer.default, constZero]

/-- Witness for the amended C1 theorem at the constant-zero run. -/
theorem minimize_success_iff_sole_ftest_witness :
    minimize Minimizer.default constZero [1]
      = .ok (firstF (stepped Minimizer.default constZero [1] (0 + 1)).pairs,
             firstX (stepped Minimizer.default constZero [1] (0 + 1)).pairs, 0) :=
  (minimize_success_iff_sole_ftest Minimizer.default constZero [1]).2 0
    (by norm_num [Minimizer.default])
    (fun i hi => absurd hi (by omega))
    (by norm_num [fTest, stepped, initState, initPairs, perturb0, sortPairs, insertP, centroidOf, zerosVec, vadd, vsub, smul, scaledAdd, step, stepAccept, stepShrink, shrinkTail, reflectPt, expandPt, outsideCt, insideCt, lastP, firstP, lastX, firstX, lastF, firstF, secondF, dfltPair, ratAbs_eval, List.replicate, Function.iterate_one, Minimizer.default, constZero])

/-- Witness for the C8 postcondition at the constant-zero run. -/
theorem minimize_success_postcondition_witness :
    ((0 : ℚ), ([1] : List ℚ), (0 : Nat)).2.1.length = ([1] : List ℚ).length ∧
    ((0 : ℚ), ([1] : List ℚ), (0 : Nat)).2.2
      < Minimizer.default.max * ([1] : List ℚ).length ∧
    ((0 : ℚ), ([1] : List ℚ), (0 : Nat)).1
      = firstF (stepped Minimizer.default constZero [1]
          (((0 : ℚ), ([1] : List ℚ), (0 : Nat)).2.2 + 1)).pairs ∧
    ((0 : ℚ), ([1] : List ℚ), (0 : Nat)).2.1
      = firstX (stepped Minimizer.default constZero [1]
          (((0 : ℚ), ([1] : List ℚ), (0 : Nat)).2.2 + 1)).pairs :=
  minimize_success_postcondition Minimizer.default constZero [1] (0, [1], 0) run_constZero_ok

/-- C6 counterexample: two cap-exhausting runs whose caps `max * n`
differ (1 and 2) return the very same failure value `()` — the failure
value of `minimize` in `src/minimizer.rs` is the unit value and cannot
carry the exhausted cap. -/
theorem error_value_carries_no_cap_cex :
    minimize maxOne firstCoord [1] = .error () ∧
    minimize maxTwo firstCoord [1] = .error () ∧
    maxOne.max * ([1] : List ℚ).length ≠ maxTwo.max * ([1] : List ℚ).length := by
  refine ⟨?_, ?_, by norm_num [maxOne, maxTwo]⟩
  · norm_num [minimize, loopAux, fTest, maxOne, firstCoord, initState, initPairs, perturb0, sortPairs, insertP, centroidOf, zerosVec, vadd, vsub, smul, scaledAdd, step, stepAccept, stepShrink, shrinkTail, reflectPt, expandPt, outsideCt, insideCt, lastP, firstP, lastX, firstX, lastF, firstF, secondF, dfltPair, ratAbs_eval, List.replicate, Function.iterate_one, Minimizer.default]
  · norm_num [minimize, loopAux, fTest, maxTwo, firstCoord, initState, initPairs, perturb0, sortPairs, insertP, centroidOf, zerosVec, vadd, vsub, smul, scaledAdd, step, stepAccept, stepShrink, shrinkTail, reflectPt, expandPt, outsideCt, insideCt, lastP, firstP, lastX, firstX, lastF, firstF, secondF, dfltPair, ratAbs_eval, List.replicate, Function.iterate_one, Minimizer.default]

/-- Witness for the amended C6 theorem at a cap-1 exhausting run. -/
theorem minimize_error_unit_and_cap_exhaustion_witness :
    () = () ∧ ∀ i, i < maxOne.max * ([1] : List ℚ).length →
      ¬ fTest (stepped maxOne firstCoord [1] (i + 1)) ≤ maxOne.tol :=
  minimize_error_unit_and_cap_exhaustion maxOne firstCoord [1] ()
    (by norm_num [minimize, loopAux, fTest, maxOne, firstCoord, initState, initPairs, perturb0, sortPairs, insertP, centroidOf, zerosVec, vadd, vsub, smul, scaledAdd, step, stepAccept, stepShrink, shrinkTail, reflectPt, expandPt, outsideCt, insideCt, lastP, firstP, lastX, firstX, lastF, firstF, secondF, dfltPair, ratAbs_eval, List.replicate, Function.iterate_one, Minimizer.default])

/-- C5 counterexample: the constant-zero run with seed `[1]` takes the
shrinkage branch at iteration 0, and the subsequent replace step does
NOT leave the post-shrink simplex unchanged: the vertex multiset after
the replace (`{(0,[1]), (0,[1/20])}`) differs from the one produced by
the shrink alone (`{(0,[1]), (0,[21/40])}`). -/
theorem shrink_then_replace_not_noop_cex :
    takesShrink Minimizer.default constZero (initState Minimizer.default constZero [1])
      = true ∧
    ¬ (Multiset.ofList
        ((shrinkTail Minimizer.default.d
            (firstX (initState Minimizer.default constZero [1]).pairs)
            (initState Minimizer.default constZero [1]).pairs).dropLast ++
          [lastP (initState Minimizer.default constZero [1]).pairs])
       = Multiset.ofList
          (shrinkTail Minimizer.default.d
            (firstX (initState Minimizer.default constZero [1]).pairs)
            (initState Minimizer.default constZero [1]).pairs)) := by
  have e0 : (initState Minimizer.default constZero [1]).pairs
      = [(0, [1]), (0, [1/20])] := by
    norm_num [initState, initPairs, perturb0, sortPairs, insertP, centroidOf, zerosVec, vadd, vsub, smul, scaledAdd, step, stepAccept, stepShrink, shrinkTail, reflectPt, expandPt, outsideCt, insideCt, lastP, firstP, lastX, firstX, lastF, firstF, secondF, dfltPair, ratAbs_eval, List.replicate, Function.iterate_one, Minimizer.default, constZero]
  constructor
  · norm_num [takesShrink, initState, initPairs, perturb0, sortPairs, insertP, centroidOf, zerosVec, vadd, vsub, smul, scaledAdd, step, stepAccept, stepShrink, shrinkTail, reflectPt, expandPt, outsideCt, insideCt, lastP, firstP, lastX, firstX, lastF, firstF, secondF, dfltPair, ratAbs_eval, List.replicate, Function.iterate_one, Minimizer.default, constZero]
  · rw [e0]
    have e1 : shrinkTail Minimizer.default.d (firstX [((0 : ℚ), [(1 : ℚ)]), (0, [1/20])])
        [((0 : ℚ), [(1 : ℚ)]), (0, [1/20])] = [(0, [1]), (0, [21/40])] := by
      norm_num [shrinkTail, firstX, firstP, dfltPair, smul, scaledAdd, Minimizer.default]
    have e2 : lastP [((0 : ℚ), [(1 : ℚ)]), (0, [1/20])] = (0, [1/20]) := by
      norm_num [lastP, dfltPair]
    rw [e1, e2]
    intro hcon
    rw [show ([((0 : ℚ), [(1 : ℚ)]), ((0 : ℚ), [(21 : ℚ)/40])].dropLast ++
        [((0 : ℚ), [(1 : ℚ)/20])]) = [((0 : ℚ), [(1 : ℚ)]), ((0 : ℚ), [(1 : ℚ)/20])]
      from by norm_num] at hcon
    rw [Multiset.coe_eq_coe] at hcon
    have hm := (List.Perm.mem_iff hcon (a := ((0 : ℚ), [(21 : ℚ)/40]))).2 (by norm_num)
    norm_num at hm

/-- Witness for the amended C5 theorem: with shrink coefficient `d = 1`
the shrink moves nothing, the shrunk worst equals the retained
candidate, and the replace is indeed a multiset no-op. -/
theorem shrink_replace_noop_iff_worst_fixed_witness :
    ([((0 : ℚ), [(0 : ℚ)]), ((1 : ℚ), [(1 : ℚ)])] : List Pair) ≠ [] ∧
    ((Multiset.ofList ((shrinkTail 1 [0]
          [((0 : ℚ), [(0 : ℚ)]), ((1 : ℚ), [(1 : ℚ)])]).dropLast ++ [((1 : ℚ), [(1 : ℚ)])])
        = Multiset.ofList (shrinkTail 1 [0]
            [((0 : ℚ), [(0 : ℚ)]), ((1 : ℚ), [(1 : ℚ)])]))
      ↔ lastP (shrinkTail 1 [0] [((0 : ℚ), [(0 : ℚ)]), ((1 : ℚ), [(1 : ℚ)])])
          = ((1 : ℚ), [(1 : ℚ)])) :=
  ⟨by simp,
   shrink_replace_noop_iff_worst_fixed 1 [0] 1 [1]
     [((0 : ℚ), [(0 : ℚ)]), ((1 : ℚ), [(1 : ℚ)])] (by simp)⟩

/-- C7 counterexample: the FIRST iteration of the `minimize` run on the
default configuration, the table objective and seed `[1, 1]` invokes
the objective exactly once (the reflection is accepted with
`fl ≤ fr < fs`, so neither the expansion nor the contraction point is
evaluated), contradicting the claimed lower bound of 2. -/
theorem single_eval_iteration_cex :
    (stepTrace Minimizer.default tableObj
      (stepped Minimizer.default tableObj [1, 1] 0)).length = 1 := by
  norm_num [stepTrace, stepped, Function.iterate_zero, tableObj, initState, initPairs, perturb0, sortPairs, insertP, centroidOf, zerosVec, vadd, vsub, smul, scaledAdd, step, stepAccept, stepShrink, shrinkTail, reflectPt, expandPt, outsideCt, insideCt, lastP, firstP, lastX, firstX, lastF, firstF, secondF, dfltPair, ratAbs_eval, List.replicate, Function.iterate_one, Minimizer.default]

/-- C9: the incremental centroid update is NOT equivalent to the spec's
from-scratch centroid.  On the crate's own 1-d test objective
`f(x) = x0²` with seed `[1]` (default configuration), iteration 0
accepts an outside contraction; the incrementally updated centroid is
`[59/40]` while the mean of the non-worst points of the updated simplex
is `[1/20]`, and the run continues (the termination test fails), so the
wrong centroid is consumed by the next iteration. -/
theorem incremental_centroid_diverges :
    (stepped Minimizer.default squareObj [1] 1).centroid = [59/40] ∧
    centroidOf 1 (stepped Minimizer.default squareObj [1] 1).pairs = [1/20] ∧
    (stepped Minimizer.default squareObj [1] 1).centroid
      ≠ centroidOf 1 (stepped Minimizer.default squareObj [1] 1).pairs ∧
    ¬ fTest (stepped Minimizer.default squareObj [1] 1) ≤ Minimizer.default.tol := by
  have e1 : (stepped Minimizer.default squareObj [1] 1).centroid = [59/40] := by
    norm_num [stepped, squareObj, initState, initPairs, perturb0, sortPairs, insertP, centroidOf, zerosVec, vadd, vsub, smul, scaledAdd, step, stepAccept, stepShrink, shrinkTail, reflectPt, expandPt, outsideCt, insideCt, lastP, firstP, lastX, firstX, lastF, firstF, secondF, dfltPair, ratAbs_eval, List.replicate, Function.iterate_one, Minimizer.default]
  have e2 : centroidOf 1 (stepped Minimizer.default squareObj [1] 1).pairs = [1/20] := by
    norm_num [stepped, squareObj, initState, initPairs, perturb0, sortPairs, insertP, centroidOf, zerosVec, vadd, vsub, smul, scaledAdd, step, stepAccept, stepShrink, shrinkTail, reflectPt, expandPt, outsideCt, insideCt, lastP, firstP, lastX, firstX, lastF, firstF, secondF, dfltPair, ratAbs_eval, List.replicate, Function.iterate_one, Minimizer.default]
  refine ⟨e1, e2, ?_, ?_⟩
  · rw [e1, e2]; norm_num
  · norm_num [fTest, stepped, squareObj, initState, initPairs, perturb0, sortPairs, insertP, centroidOf, zerosVec, vadd, vsub, smul, scaledAdd, step, stepAccept, stepShrink, shrinkTail, reflectPt, expandPt, outsideCt, insideCt, lastP, firstP, lastX, firstX, lastF, firstF, secondF, dfltPair, ratAbs_eval, List.replicate, Function.iterate_one, Minimizer.default]


/-- Witness for C2 at a concrete two-vertex simplex. -/
theorem shrink_rewrites_tail_and_reevaluates_witness :
    (0 < ([((5 : ℚ), [(4 : ℚ)])] : List Pair).length) ∧
    ((Simplex.shrink defaultMG firstCoord
        (((1 : ℚ), [(2 : ℚ)]) :: [((5 : ℚ), [(4 : ℚ)])])).length
      = ([((5 : ℚ), [(4 : ℚ)])] : List Pair).length + 1 ∧
    firstP (Simplex.shrink defaultMG firstCoord
        (((1 : ℚ), [(2 : ℚ)]) :: [((5 : ℚ), [(4 : ℚ)])]))
      = ((1 : ℚ), [(2 : ℚ)]) ∧
    ((Simplex.shrink defaultMG firstCoord
        (((1 : ℚ), [(2 : ℚ)]) :: [((5 : ℚ), [(4 : ℚ)])])).getD (0 + 1) dfltPair).2
      = vadd (smul defaultMG.d
          (((((1 : ℚ), [(2 : ℚ)]) :: [((5 : ℚ), [(4 : ℚ)])]) : List Pair).getD
            (0 + 1) dfltPair).2)
          (smul (1 - defaultMG.d) ((1 : ℚ), [(2 : ℚ)]).2) ∧
    ((Simplex.shrink defaultMG firstCoord
        (((1 : ℚ), [(2 : ℚ)]) :: [((5 : ℚ), [(4 : ℚ)])])).getD (0 + 1) dfltPair).1
      = firstCoord (((Simplex.shrink defaultMG firstCoord
          (((1 : ℚ), [(2 : ℚ)]) :: [((5 : ℚ), [(4 : ℚ)])])).getD (0 + 1) dfltPair).2)) :=
  ⟨by simp,
   shrink_rewrites_tail_and_reevaluates defaultMG firstCoord (1, [2]) [(5, [4])] 0 (by simp)⟩

/-- Witness for C3 at the seed `[0, 2]`, covering both the exact-zero
(absolute `step_zero`) and the nonzero (relative `1 + step`) branches. -/
theorem simplex_new_spec_witness :
    1 ≤ ([0, 2] : List ℚ).length ∧
    ((Simplex.new defaultMG firstCoord [0, 2]).length = ([0, 2] : List ℚ).length + 1 ∧
    firstP (Simplex.new defaultMG firstCoord [0, 2]) = (firstCoord [0, 2], [0, 2]) ∧
    ∀ i, i < ([0, 2] : List ℚ).length →
      ((Simplex.new defaultMG firstCoord [0, 2]).getD (i + 1) dfltPair).1
        = firstCoord (((Simplex.new defaultMG firstCoord [0, 2]).getD (i + 1) dfltPair).2) ∧
      (((Simplex.new defaultMG firstCoord [0, 2]).getD (i + 1) dfltPair).2).length
        = ([0, 2] : List ℚ).length ∧
      ∀ j, j < ([0, 2] : List ℚ).length →
        (((Simplex.new defaultMG firstCoord [0, 2]).getD (i + 1) dfltPair).2).getD j 0
          = if j = i then
              (if ([0, 2] : List ℚ).getD i 0 = 0 then defaultMG.step_zero
               else ([0, 2] : List ℚ).getD i 0 * (1 + defaultMG.step))
            else ([0, 2] : List ℚ).getD j 0) :=
  ⟨by simp, simplex_new_spec defaultMG firstCoord [0, 2] (by simp)⟩

/-- Witness for C4 at iteration 0 of the run on `f(x) = x0²` with seed
`[1]` (default configuration): the reflection value `81/100` is not
below the second-worst `1/400`, the outside contraction point is
`[-17/40]` with value `289/1600 < min(81/100, 1)`, so the contraction
candidate replaces the worst vertex. -/
theorem contraction_spec_points_and_acceptance_witness :
    Minimizer.default.a = 1 ∧
    ((1 : ℚ), [(1 : ℚ)]) = lastP (initState Minimizer.default squareObj [1]).pairs ∧
    (81/100 : ℚ) = squareObj (reflectPt Minimizer.default
        (initState Minimizer.default squareObj [1]).centroid ((1 : ℚ), [(1 : ℚ)]).2) ∧
    ¬ (81/100 : ℚ) < secondF (initState Minimizer.default squareObj [1]).pairs ∧
    ([-17/40] : List ℚ)
      = (if (81/100 : ℚ) < ((1 : ℚ), [(1 : ℚ)]).1 then
           vadd (initState Minimizer.default squareObj [1]).centroid
             (smul Minimizer.default.b
               (vsub (initState Minimizer.default squareObj [1]).centroid
                 ((1 : ℚ), [(1 : ℚ)]).2))
         else
           vadd (initState Minimizer.default squareObj [1]).centroid
             (smul Minimizer.default.b
               (vsub ((1 : ℚ), [(1 : ℚ)]).2
                 (initState Minimizer.default squareObj [1]).centroid))) ∧
    (289/1600 : ℚ) = squareObj [-17/40] ∧
    (step Minimizer.default squareObj 1 (initState Minimizer.default squareObj [1])).pairs
      = (if (289/1600 : ℚ) < min (81/100 : ℚ) ((1 : ℚ), [(1 : ℚ)]).1 then
           sortPairs ((initState Minimizer.default squareObj [1]).pairs.dropLast ++
             [((289/1600 : ℚ), ([-17/40] : List ℚ))])
         else
           sortPairs ((shrinkTail Minimizer.default.d
               (firstX (initState Minimizer.default squareObj [1]).pairs)
               (initState Minimizer.default squareObj [1]).pairs).dropLast ++
             [((1 : ℚ), [(1 : ℚ)])])) :=
  ⟨rfl,
   by norm_num [initState, initPairs, perturb0, sortPairs, insertP, centroidOf, zerosVec, vadd, vsub, smul, scaledAdd, step, stepAccept, stepShrink, shrinkTail, reflectPt, expandPt, outsideCt, insideCt, lastP, firstP, lastX, firstX, lastF, firstF, secondF, dfltPair, ratAbs_eval, List.replicate, Function.iterate_one, Minimizer.default, squareObj],
   by norm_num [initState, initPairs, perturb0, sortPairs, insertP, centroidOf, zerosVec, vadd, vsub, smul, scaledAdd, step, stepAccept, stepShrink, shrinkTail, reflectPt, expandPt, outsideCt, insideCt, lastP, firstP, lastX, firstX, lastF, firstF, secondF, dfltPair, ratAbs_eval, List.replicate, Function.iterate_one, Minimizer.default, squareObj],
   by norm_num [initState, initPairs, perturb0, sortPairs, insertP, centroidOf, zerosVec, vadd, vsub, smul, scaledAdd, step, stepAccept, stepShrink, shrinkTail, reflectPt, expandPt, outsideCt, insideCt, lastP, firstP, lastX, firstX, lastF, firstF, secondF, dfltPair, ratAbs_eval, List.replicate, Function.iterate_one, Minimizer.default, squareObj],
   by norm_num [initState, initPairs, perturb0, sortPairs, insertP, centroidOf, zerosVec, vadd, vsub, smul, scaledAdd, step, stepAccept, stepShrink, shrinkTail, reflectPt, expandPt, outsideCt, insideCt, lastP, firstP, lastX, firstX, lastF, firstF, secondF, dfltPair, ratAbs_eval, List.replicate, Function.iterate_one, Minimizer.default, squareObj],
   by norm_num [squareObj],
   contraction_spec_points_and_acceptance Minimizer.default squareObj 1
     (initState Minimizer.default squareObj [1]) (1, [1]) (81/100) [-17/40] (289/1600)
     rfl
     (by norm_num [initState, initPairs, perturb0, sortPairs, insertP, centroidOf, zerosVec, vadd, vsub, smul, scaledAdd, step, stepAccept, stepShrink, shrinkTail, reflectPt, expandPt, outsideCt, insideCt, lastP, firstP, lastX, firstX, lastF, firstF, secondF, dfltPair, ratAbs_eval, List.replicate, Function.iterate_one, Minimizer.default, squareObj])
     (by norm_num [initState, initPairs, perturb0, sortPairs, insertP, centroidOf, zerosVec, vadd, vsub, smul, scaledAdd, step, stepAccept, stepShrink, shrinkTail, reflectPt, expandPt, outsideCt, insideCt, lastP, firstP, lastX, firstX, lastF, firstF, secondF, dfltPair, ratAbs_eval, List.replicate, Function.iterate_one, Minimizer.default, squareObj])
     (by norm_num [initState, initPairs, perturb0, sortPairs, insertP, centroidOf, zerosVec, vadd, vsub, smul, scaledAdd, step, stepAccept, stepShrink, shrinkTail, reflectPt, expandPt, outsideCt, insideCt, lastP, firstP, lastX, firstX, lastF, firstF, secondF, dfltPair, ratAbs_eval, List.replicate, Function.iterate_one, Minimizer.default, squareObj])
     (by norm_num [initState, initPairs, perturb0, sortPairs, insertP, centroidOf, zerosVec, vadd, vsub, smul, scaledAdd, step, stepAccept, stepShrink, shrinkTail, reflectPt, expandPt, outsideCt, insideCt, lastP, firstP, lastX, firstX, lastF, firstF, secondF, dfltPair, ratAbs_eval, List.replicate, Function.iterate_one, Minimizer.default, squareObj])
     (by norm_num [squareObj])⟩
